import Mathlib

/-!
Verification of the cmdr command-line framework (github.com/tychoish/cmdr).

This file shallowly embeds the parts of the source that the checked
properties are about: the before-phase pipeline and action dispatch wired
by `MakeCommander` (command.go), one-time resolution (`Commander.Command`),
the flag construction and once-guarded validation (`flag.go`), and the
typed operation composition helpers (`helpers.go`).

Go side effects hidden in closures are made explicit by threading a
"world" type `σ` through the embedded functions; machine state that the
source mutates (the commander's context cell, the once guards) is passed
and returned explicitly.
-/

namespace Cmdr

/-! ## Error model

Go `error` values as the source builds them: the three sentinel errors of
exec.go, plain message errors, `fmt.Errorf("...: %w", err)` wrapping, and
the merge produced by `erc.Collector` / `erc.Join`. -/

inductive GoError where
  | errNotDefined
  | errNotSpecified
  | errNotSet
  | msg : String → GoError
  | wrapf : String → GoError → GoError
  | join2 : GoError → GoError → GoError
deriving DecidableEq, Repr

/-- Go `errors.Is`: an error "wraps" a target if it equals it or some
unwrapping step reaches it. -/
def errorIs : GoError → GoError → Bool
  | .wrapf s inner, t => (GoError.wrapf s inner == t) || errorIs inner t
  | .join2 a b, t => (GoError.join2 a b == t) || errorIs a t || errorIs b t
  | e, t => e == t

/-- Source `erc.Collector.Resolve`: `none` when no error was collected, otherwise
the single merged error holding every collected error in order. -/
def resolveCollected : List GoError → Option GoError
  | [] => none
  | e :: rest =>
    some (match resolveCollected rest with
      | none => e
      | some r => GoError.join2 e r)

/-- Source `erc.Collector.Push`: a nil error is dropped, a non-nil error is
recorded (`es` holds the errors the rest of the run collects). -/
def pushErr (e? : Option GoError) (es : List GoError) : List GoError :=
  match e? with
  | none => es
  | some e => e :: es

/-! ## The before phase (command.go, `MakeCommander`, `cmd.Before`)

A hook (`cmdr.Action`) runs with the commander-managed context and the
cli command value; middleware maps context to context; a flag's
`RunAction` callback runs with the context the parsing library passed to
`Before`. `σ` models the side effects the Go closures can have. -/

def HookFn (σ Ctx Cc : Type) : Type := σ → Ctx → Cc → σ × Option GoError

def MiddlewareFn (σ Ctx : Type) : Type := σ → Ctx → σ × Ctx

def FlagActionFn (σ Ctx Cc : Type) : Type := σ → Ctx → Cc → σ × Option GoError

def ActionFn (σ Ctx Cc : Type) : Type := σ → Ctx → Cc → σ × Option GoError

/-- The hook loop of `cmd.Before`: for each hook in insertion order,
`ec.Push(op(c.getContext(), cc))`.  The managed context is not changed by
this loop, so every hook reads the same managed context. -/
def runHooks (hooks : List (HookFn σ Ctx Cc)) (s : σ) (mctx : Ctx) (cc : Cc) :
    σ × List GoError :=
  match hooks with
  | [] => (s, [])
  | h :: rest =>
    let r1 := h s mctx cc
    let r2 := runHooks rest r1.1 mctx cc
    (r2.1, pushErr r1.2 r2.2)

/-- The middleware loop of `cmd.Before`: for each middleware in insertion
order, `c.setContext(op(c.getContext()))` — each middleware receives the
context produced by the previous one and the result is rebound into the
commander's context cell. -/
def runMiddleware (mws : List (MiddlewareFn σ Ctx)) (s : σ) (mctx : Ctx) : σ × Ctx :=
  match mws with
  | [] => (s, mctx)
  | m :: rest =>
    let r1 := m s mctx
    runMiddleware rest r1.1 r1.2

/-- The flag loop of `cmd.Before`: for each flag in insertion order,
`ec.Push(af.RunAction(ctx, cc))`, where `ctx` is the context the parsing
library passed to `Before` (not the managed context). -/
def runFlagActions (flags : List (FlagActionFn σ Ctx Cc)) (s : σ) (pctx : Ctx) (cc : Cc) :
    σ × List GoError :=
  match flags with
  | [] => (s, [])
  | f :: rest =>
    let r1 := f s pctx cc
    let r2 := runFlagActions rest r1.1 pctx cc
    (r2.1, pushErr r1.2 r2.2)

/-- The `cmd.Before` callback as installed by `MakeCommander` (command.go:120-147):
run all hooks, then all middleware (rebinding the managed context), then
all flag validations; return the managed context and the merged error of
everything the collector gathered. -/
def cmdBefore (hooks : List (HookFn σ Ctx Cc)) (mws : List (MiddlewareFn σ Ctx))
    (flags : List (FlagActionFn σ Ctx Cc)) (s : σ) (mctx pctx : Ctx) (cc : Cc) :
    σ × Ctx × Option GoError :=
  let rh := runHooks hooks s mctx cc
  let rm := runMiddleware mws rh.1 mctx
  let rf := runFlagActions flags rm.1 pctx cc
  (rf.1, rm.2, resolveCollected (rh.2 ++ rf.2))

/-! ## The action phase (command.go, `MakeCommander`, `cmd.Action`) -/

inductive HelpShown where
  | noHelp
  | appHelp
  | commandHelp
deriving DecidableEq, Repr

/-- Go `fmt` `%q` formatting of a command name. -/
def goQuote (s : String) : String := "\"" ++ s ++ "\""

/-- Source `erc.Join(helpErr, err)`: the help-rendering collaborator's error (nil
in this model of the external renderer) joined with the dispatch error. -/
def joinHelpErr (helpErr : Option GoError) (e : GoError) : GoError :=
  match helpErr with
  | none => e
  | some he => GoError.join2 he e

/-- The `cmd.Action` callback as installed by `MakeCommander` (command.go:149-165).
If a terminal action is set it runs with the commander-managed context
`mctx` (the source calls `op(c.getContext(), cc)`); otherwise the
three-way error dispatch runs.  `cli.ShowAppHelp` / `cli.ShowCommandHelp`
belong to the external parsing collaborator; they are modeled as
rendering help (recorded in the `HelpShown` component) and returning a
nil error. -/
def cmdAction (action : Option (ActionFn σ Ctx Cc)) (numSubcmds : Nat)
    (cmdName : String) (argsLen : Nat) (s : σ) (mctx : Ctx) (cc : Cc) :
    σ × HelpShown × Option GoError :=
  match action with
  | some op =>
    let r := op s mctx cc
    (r.1, HelpShown.noHelp, r.2)
  | none =>
    if numSubcmds = 0 then
      (s, HelpShown.noHelp, some (GoError.wrapf "action" GoError.errNotDefined))
    else if argsLen = 0 then
      (s, HelpShown.appHelp,
        some (joinHelpErr none
          (GoError.wrapf ("no operation for " ++ goQuote cmdName) GoError.errNotSpecified)))
    else
      (s, HelpShown.commandHelp,
        some (joinHelpErr none
          (GoError.wrapf ("command " ++ toString argsLen) GoError.errNotDefined)))

/-- Modelled from the spec: the parsing/execution collaborator (external
to this repository) invokes the `Before` callback and then the `Action`
callback, and "before-phase errors ... both abort the action phase and
are returned to the caller" (§4.2, §7) — a non-nil `Before` error means
`Action` is never invoked and that error is what `Run`'s caller
receives. -/
def cliRunOnce (hooks : List (HookFn σ Ctx Cc)) (mws : List (MiddlewareFn σ Ctx))
    (flags : List (FlagActionFn σ Ctx Cc)) (action : Option (ActionFn σ Ctx Cc))
    (numSubcmds : Nat) (cmdName : String) (argsLen : Nat)
    (s : σ) (mctx pctx : Ctx) (cc : Cc) : σ × HelpShown × Option GoError :=
  let rb := cmdBefore hooks mws flags s mctx pctx cc
  match rb.2.2 with
  | some e => (rb.1, HelpShown.noHelp, some e)
  | none => cmdAction action numSubcmds cmdName argsLen rb.1 rb.2.1 cc

/-! ## Instrumentation

Concrete hook/middleware/flag families whose side effect is to log their
own execution, used to observe execution order and skipping. -/

inductive Ev where
  | hook (i : Nat)
  | mw (i : Nat)
  | flagv (i : Nat)
  | act
deriving DecidableEq, Repr

/-- A hook that logs its index and fails according to `he`. -/
def tracerHook (he : Nat → Option GoError) (i : Nat) : HookFn (List Ev) (List Nat) Unit :=
  fun s _ _ => (s ++ [Ev.hook i], he i)

/-- A middleware that logs its index and appends its index to the context
it received, so the final context records the chaining order. -/
def tracerMw (i : Nat) : MiddlewareFn (List Ev) (List Nat) :=
  fun s c => (s ++ [Ev.mw i], c ++ [i])

/-- A flag validation that logs its index and fails according to `fe`. -/
def tracerFlag (fe : Nat → Option GoError) (i : Nat) : FlagActionFn (List Ev) (List Nat) Unit :=
  fun s _ _ => (s ++ [Ev.flagv i], fe i)

/-- A terminal action that logs that it ran. -/
def tracerAction : ActionFn (List Ev) (List Nat) Unit :=
  fun s _ _ => (s ++ [Ev.act], none)

/-! ## Resolution (command.go, `Commander.Command`)

`Command()` runs its body under `sync.Once`, so a sequential model with
an explicit `resolved` bit captures its contract: at most one execution
of the body, every call returning the cached `c.cmd`.  Flags are opaque
tokens (`Nat`); the commander's context cell is modeled by the `ctxBound`
bit, since the body only checks it for nil and shares it with children
(`v.ctx = c.ctx`). -/

/-- util.go `secondValueWhenFirstIsZero`. -/
def secondValueWhenFirstIsZero (a b : String) : String :=
  if a = "" then b else a

/-- The compiled `cli.Command` fields resolution writes. -/
inductive CompiledCmd where
  | mk (name usage : String) (hidden : Bool) (aliases : List String)
      (flags : List Nat) (commands : List CompiledCmd)

def CompiledCmd.flags : CompiledCmd → List Nat
  | .mk _ _ _ _ fl _ => fl

def CompiledCmd.commands : CompiledCmd → List CompiledCmd
  | .mk _ _ _ _ _ cs => cs

def CompiledCmd.name : CompiledCmd → String
  | .mk n _ _ _ _ _ => n

def CompiledCmd.usage : CompiledCmd → String
  | .mk _ u _ _ _ _ => u

def CompiledCmd.aliases : CompiledCmd → List String
  | .mk _ _ _ al _ _ => al

/-- The commander fields `Command()` reads and writes: the once guard
(`resolved`), the context cell (`ctxBound`), the embedded `cli.Command`,
the builder cells and lists, and the child commanders. -/
inductive CommanderSt where
  | mk (resolved ctxBound : Bool) (cmd : CompiledCmd) (name usage : String)
      (hidden : Bool) (aliases : List String) (flags : List Nat)
      (subcmds : List CommanderSt)

def CommanderSt.ctxBound : CommanderSt → Bool
  | .mk _ b _ _ _ _ _ _ _ => b

mutual
/-- The body of `Commander.Command` (command.go:256-287), with the
current state of the context cell passed as `bound`: when already
resolved return the cached command unchanged; otherwise assert the
context is bound, fill name/usage/hidden/aliases, append each flag in
insertion order, then for each child share the context cell
(`v.ctx = c.ctx`) and recursively resolve it, appending the result. -/
def commandAux : Bool → CommanderSt → Except String (CompiledCmd × CommanderSt)
  | bound, .mk resolved _ cmd name usage hidden aliases flags subcmds =>
    if resolved then
      Except.ok (cmd, .mk resolved bound cmd name usage hidden aliases flags subcmds)
    else if bound = false then
      Except.error "context must be set when calling command"
    else
      match commandListAux subcmds with
      | Except.error e => Except.error e
      | Except.ok sub =>
        let newCmd : CompiledCmd := CompiledCmd.mk
          (secondValueWhenFirstIsZero cmd.name name)
          (secondValueWhenFirstIsZero cmd.usage usage)
          hidden
          (if cmd.aliases.length = 0 then aliases else cmd.aliases)
          (cmd.flags ++ flags)
          (cmd.commands ++ sub.1)
        Except.ok (newCmd, .mk true bound newCmd name usage hidden aliases flags sub.2)

/-- The subcommand loop of resolution: each child's context cell is bound
to the parent's (which the body has just checked non-nil) and the child
is resolved recursively, in insertion order. -/
def commandListAux : List CommanderSt → Except String (List CompiledCmd × List CommanderSt)
  | [] => Except.ok ([], [])
  | c :: rest =>
    match commandAux true c with
    | Except.error e => Except.error e
    | Except.ok r1 =>
      match commandListAux rest with
      | Except.error e => Except.error e
      | Except.ok rr => Except.ok (r1.1 :: rr.1, r1.2 :: rr.2)
end

/-- Source `Commander.Command`, entered with the commander's own context cell. -/
def command (c : CommanderSt) : Except String (CompiledCmd × CommanderSt) :=
  commandAux c.ctxBound c

/-- A concrete unresolved commander used as witness input: context bound,
two flags, one child with one flag. -/
def emptyCmd : CompiledCmd := CompiledCmd.mk "" "" false [] [] []

def sampleChild : CommanderSt :=
  CommanderSt.mk false false emptyCmd "child" "cu" false [] [7] []

def sampleCommander : CommanderSt :=
  CommanderSt.mk false true emptyCmd "root" "ru" false ["r"] [1, 2] [sampleChild]

def sampleChildCmd : CompiledCmd := CompiledCmd.mk "child" "cu" false [] [7] []

def sampleRootCmd : CompiledCmd :=
  CompiledCmd.mk "root" "ru" false ["r"] [1, 2] [sampleChildCmd]

def sampleResolved : CommanderSt :=
  CommanderSt.mk true true sampleRootCmd "root" "ru" false ["r"] [1, 2]
    [CommanderSt.mk true true sampleChildCmd "child" "cu" false [] [7] []]

/-! ## The flag validation once-guard (flag.go)

`Flag` (flag.go:99-102) carries `validateOnce *adt.Once[error]`; the
`Action` callback every type case of `MakeFlag` installs guards the user
validation with it.  The cell state is threaded explicitly; the user
validation's closure effects are a world `σ`. -/

/-- State of `adt.Once[error]`: whether `Do` has run, and the stored result (a nil
error stored as `none`). -/
structure OnceErr where
  done : Bool
  cached : Option GoError
deriving DecidableEq, Repr

/-- Source `MakeFlag` creates the guard fresh: `&adt.Once[error]{}`
(flag.go:108); nothing in the source ever resets it. -/
def freshOnce : OnceErr := { done := false, cached := none }

/-- Source `adt.Once.Do`: run `f` and store its result only when not yet run. -/
def onceDo {σ : Type} (o : OnceErr) (s : σ) (f : σ → σ × Option GoError) : OnceErr × σ :=
  if o.done then (o, s)
  else
    let r := f s
    ({ done := true, cached := r.2 }, r.1)

/-- Source `adt.Once.Resolve`: the stored result. -/
def onceResolve (o : OnceErr) : Option GoError := o.cached

/-- Source `FlagOptions.doValidate` (flag.go:90-95): a nil `Validate` yields a
nil error without running anything; otherwise the user validation runs. -/
def doValidate {σ T : Type} (validate : Option (σ → T → σ × Option GoError)) (s : σ) (v : T) :
    σ × Option GoError :=
  match validate with
  | none => (s, none)
  | some f => f s v

/-- The `Action` callback `MakeFlag` installs (flag.go:121-126 for the
string case; every other type case is identical in shape): guard
`doValidate` on the parsed value with the flag's once cell, then return
the cell's resolved result. -/
def flagRunAction {σ T : Type} (validate : Option (σ → T → σ × Option GoError)) (o : OnceErr)
    (s : σ) (v : T) : OnceErr × σ × Option GoError :=
  let r := onceDo o s (fun s1 => doValidate validate s1 v)
  (r.1, r.2, onceResolve r.1)

/-- The invocations of the flag's action callback within one parse, in
order, threading the flag's once cell. -/
def flagRunActions {σ T : Type} (validate : Option (σ → T → σ × Option GoError)) (o : OnceErr)
    (s : σ) (vals : List T) : OnceErr × σ × List (Option GoError) :=
  match vals with
  | [] => (o, s, [])
  | v :: rest =>
    let r1 := flagRunAction validate o s v
    let r2 := flagRunActions validate r1.1 r1.2.1 rest
    (r2.1, r2.2.1, r1.2.2 :: r2.2.2)

/-- Repeated executions (parses) of the same resolved command: the `Flag`
value — and with it `validateOnce` — persists across parses, so the cell
is threaded from one parse to the next. -/
def flagRunParses {σ T : Type} (validate : Option (σ → T → σ × Option GoError)) (o : OnceErr)
    (s : σ) (parses : List (List T)) : OnceErr × σ × List (List (Option GoError)) :=
  match parses with
  | [] => (o, s, [])
  | p :: rest =>
    let r1 := flagRunActions validate o s p
    let r2 := flagRunParses validate r1.1 r1.2.1 rest
    (r2.1, r2.2.1, r1.2.2 :: r2.2.2)

/-- A user validation function instrumented to count its executions. -/
def countingValidate {T : Type} (vf : T → Option GoError) :
    Option (Nat → T → Nat × Option GoError) :=
  some (fun n v => (n + 1, vf v))

/-! ## Flag construction: slice cases (flag.go, `MakeFlag`)

The `[]string`, `[]int` and `[]int64` cases of `MakeFlag`
(flag.go:269-323) share one shape: build the concrete flag, then assert
`fun.Invariant.OK(len(dval) == 0, ...)` and
`fun.Invariant.OK(opts.Destination == nil, ...)`.  An invariant failure
is a construction-time abort (a panic, not a returned error), modeled as
`Except.error` carrying the assertion message. -/

structure SliceFlagOptions (α : Type) where
  name : String
  aliases : List String
  usage : String
  filePath : String
  required : Bool
  hidden : Bool
  default : List α
  destination : Option (List α)

structure SliceFlag (α : Type) where
  name : String
  aliases : List String
  usage : String
  filePath : String
  required : Bool
  hidden : Bool
deriving DecidableEq, Repr

def exceptIsOk {ε α : Type} : Except ε α → Bool
  | Except.ok _ => true
  | Except.error _ => false

/-- Source `MakeFlag`, slice cases: the concrete flag is built from the
descriptor, then the two slice invariants are asserted in source order. -/
def makeFlagSlice {α : Type} (opts : SliceFlagOptions α) : Except String (SliceFlag α) :=
  let o : SliceFlag α :=
    { name := opts.name, aliases := opts.aliases, usage := opts.usage,
      filePath := opts.filePath, required := opts.required, hidden := opts.hidden }
  if opts.default.length = 0 then
    if opts.destination.isNone then Except.ok o
    else Except.error "cannot specify destination for slice values"
  else Except.error "slice flags should not have default values"

/-! ## Flag construction: the timestamp case and the layout setter -/

/-- The closed set of value types `FlagTypes` admits (flag.go:14-16);
the only timestamp type in the set is `*time.Time`. -/
inductive FlagTypeTag where
  | tString
  | tInt
  | tUint
  | tInt64
  | tUint64
  | tFloat64
  | tBool
  | tTimePtr
  | tDuration
  | tStringSlice
  | tIntSlice
  | tInt64Slice
deriving DecidableEq, Repr

/-- The Go constant `time.RFC3339`. -/
def timeRFC3339 : String := "2006-01-02T15:04:05Z07:00"

/-- The fields of `FlagOptions` the layout setter touches, together with
the type tag of the descriptor's value type. -/
structure FlagOptionsTL where
  tag : FlagTypeTag
  timestampLayout : String
deriving DecidableEq, Repr

/-- Source `FlagOptions.SetTimestmapLayout` (flag.go:68-76): a type switch on
the default value admits only the timestamp types (of which the
`FlagTypes` constraint permits just `*time.Time`); any other type hits
`fun.Invariant.OK(false, ...)`, a construction-time abort. -/
def setTimestmapLayout (fo : FlagOptionsTL) (l : String) : Except String FlagOptionsTL :=
  match fo.tag with
  | FlagTypeTag.tTimePtr => Except.ok { fo with timestampLayout := l }
  | _ => Except.error "cannot set timestamp layout for non-timestamp flags"

/-- A `time.Time` value, opaque to the engine. -/
def TimeVal : Type := Int

/-- Go `time.Time` zero value, the zero time used when the default pointer is nil. -/
def timeZeroVal : TimeVal := (0 : Int)

structure TimestampFlagOptions where
  name : String
  aliases : List String
  usage : String
  filePath : String
  required : Bool
  hidden : Bool
  timestampLayout : String
  default : Option TimeVal

structure TimestampFlag where
  name : String
  aliases : List String
  usage : String
  filePath : String
  required : Bool
  hidden : Bool
  value : TimeVal
  layout : String

/-- Source `MakeFlag`, `*time.Time` case (flag.go:230-252): an unset (empty)
layout defaults to `time.RFC3339`, a nil default pointer defaults to the
zero time, and the concrete flag carries the resulting layout. -/
def makeFlagTimestamp (opts : TimestampFlagOptions) : TimestampFlag :=
  let layout := if opts.timestampLayout = "" then timeRFC3339 else opts.timestampLayout
  let dval := opts.default.getD timeZeroVal
  { name := opts.name, aliases := opts.aliases, usage := opts.usage,
    filePath := opts.filePath, required := opts.required, hidden := opts.hidden,
    value := dval, layout := layout }

/-! ## CompositeHook (helpers.go:114-129) -/

/-- The validation loop of `CompositeHook`: run each Operation in order
on the produced value, early-returning the first error. -/
def runOps {Ctx T : Type} (ops : List (Ctx → T → Option GoError)) (ctx : Ctx) (v : T) :
    Option GoError :=
  match ops with
  | [] => none
  | op :: rest =>
    match op ctx v with
    | some e => some e
    | none => runOps rest ctx v

/-- Source `CompositeHook`: sequence a constructor Hook with validation
Operations over the produced value; on the first error (constructor or
Operation) return `fun.ZeroOf[T]()` (the `default` of `Inhabited`)
together with that error, otherwise the constructed value and nil. -/
def CompositeHook {Ctx Cc T : Type} [Inhabited T] (constr : Ctx → Cc → T × Option GoError)
    (ops : List (Ctx → T → Option GoError)) : Ctx → Cc → T × Option GoError :=
  fun ctx cc =>
    let r := constr ctx cc
    match r.2 with
    | some e => (default, some e)
    | none =>
      match runOps ops ctx r.1 with
      | some e => (default, some e)
      | none => (r.1, none)

/-! ## OperationSpec and its Add contract (helpers.go:22-93)

`Add` closes the installed functions over a shared cell `var out T`; the
cell is made explicit, so an untyped hook is a transformer of (cell,
world) and the installed middleware/action read the cell. -/

structure OperationSpec (σ Ctx Cc T : Type) where
  constr : σ → Ctx → Cc → σ × T × Option GoError
  hooks : List (σ → Ctx → T → σ × Option GoError)
  middleware : Option (Ctx → T → Ctx)
  action : Option (σ → Ctx → T → σ × Option GoError)

/-- The hook/middleware/action attachments of a Commander, with the
captured closure cell of type `T` made explicit. -/
structure CommanderA (σ Ctx Cc T : Type) where
  hooks : List (T → σ → Ctx → Cc → T × σ × Option GoError)
  middleware : List (T → Ctx → Ctx)
  action : Option (T → σ → Ctx → Cc → σ × Option GoError)

/-- The validation loop inside the one hook `Add` installs: each
type-specialized Operation runs in order against the captured value,
early-returning the first error (helpers.go:74-79). -/
def specHookOps {σ Ctx T : Type} (ops : List (σ → Ctx → T → σ × Option GoError))
    (out : T) (s : σ) (ctx : Ctx) : T × σ × Option GoError :=
  match ops with
  | [] => (out, s, none)
  | op :: rest =>
    let r := op s ctx out
    match r.2 with
    | some e => (out, r.1, some e)
    | none => specHookOps rest out r.1 ctx

/-- The single untyped hook `Add` installs (helpers.go:68-80): run the
constructor, store the produced value in the captured cell, and — unless
the constructor failed — run the validation Operations in order. -/
def specHook {σ Ctx Cc T : Type} (spec : OperationSpec σ Ctx Cc T) :
    T → σ → Ctx → Cc → T × σ × Option GoError :=
  fun _old s ctx cc =>
    let r := spec.constr s ctx cc
    match r.2.2 with
    | some e => (r.2.1, r.1, some e)
    | none => specHookOps spec.hooks r.2.1 r.1 ctx

/-- Source `OperationSpec.Add` (helpers.go:66-93): append the one composite
hook; append a middleware closure reading the cell only when the spec's
middleware is present; set the action to a closure reading the cell only
when the spec's action is present. -/
def OperationSpec.add {σ Ctx Cc T : Type} (spec : OperationSpec σ Ctx Cc T)
    (c : CommanderA σ Ctx Cc T) : CommanderA σ Ctx Cc T :=
  { hooks := c.hooks ++ [specHook spec]
    middleware :=
      match spec.middleware with
      | some mw => c.middleware ++ [fun out ctx => mw ctx out]
      | none => c.middleware
    action :=
      match spec.action with
      | some a => some (fun out s ctx _ => a s ctx out)
      | none => c.action }

/-- A concrete spec with exactly one validation Operation. -/
def spec1 : OperationSpec Unit Unit Unit Unit :=
  { constr := fun s _ _ => (s, (), none)
    hooks := [fun s _ _ => (s, none)]
    middleware := none
    action := none }

/-- A freshly made commander: no hooks, no middleware, no action. -/
def commander0 : CommanderA Unit Unit Unit Unit :=
  { hooks := [], middleware := [], action := none }

end Cmdr

namespace Cmdr

/-! ## Helper lemmas for the before phase -/

theorem runHooks_tracer (he : Nat → Option GoError) (hs : List Nat) (s : List Ev)
    (c : List Nat) :
    runHooks (hs.map (tracerHook he)) s c () = (s ++ hs.map Ev.hook, hs.filterMap he) := by
  induction hs generalizing s with
  | nil => simp [runHooks]
  | cons i rest ih =>
    cases hei : he i <;>
      simp [runHooks, tracerHook, pushErr, ih, hei, List.filterMap_cons]

theorem runMiddleware_tracer (ms : List Nat) (s : List Ev) (c : List Nat) :
    runMiddleware (ms.map tracerMw) s c = (s ++ ms.map Ev.mw, c ++ ms) := by
  induction ms generalizing s c with
  | nil => simp [runMiddleware]
  | cons i rest ih =>
    simp [runMiddleware, tracerMw, ih]

theorem runFlagActions_tracer (fe : Nat → Option GoError) (fs : List Nat) (s : List Ev)
    (c : List Nat) :
    runFlagActions (fs.map (tracerFlag fe)) s c () = (s ++ fs.map Ev.flagv, fs.filterMap fe) := by
  induction fs generalizing s with
  | nil => simp [runFlagActions]
  | cons i rest ih =>
    cases fei : fe i <;>
      simp [runFlagActions, tracerFlag, pushErr, ih, fei, List.filterMap_cons]

/-- C1: in every execution of the before phase, the hooks run first in
insertion order, then the middleware in insertion order — each receiving
the context produced by the previous one, the final context (rebound into
the commander) being the left fold of the middleware over the initial
managed context — and then the flag validations in insertion order. -/
theorem before_phase_order (hs ms fs : List Nat) (he fe : Nat → Option GoError)
    (s : List Ev) (mctx pctx : List Nat) :
    cmdBefore (hs.map (tracerHook he)) (ms.map tracerMw) (fs.map (tracerFlag fe))
        s mctx pctx () =
      (s ++ hs.map Ev.hook ++ ms.map Ev.mw ++ fs.map Ev.flagv,
       mctx ++ ms,
       resolveCollected (hs.filterMap he ++ fs.filterMap fe)) := by
  simp [cmdBefore, runHooks_tracer, runMiddleware_tracer, runFlagActions_tracer]

/-- C2: in every execution, the errors raised by hooks and flag
validations in the before phase (middleware, being `Ctx → Ctx`, can raise
none) are all collected — every hook still executes (appears in the log)
even when an earlier hook failed — and merged into the single error
`resolveCollected` of the raised errors in phase order; when that merged
error is non-nil it is the before phase's result, the terminal action is
never invoked (no `Ev.act` in the log), and it is what reaches the caller
of the run; when it is nil the terminal action runs. -/
theorem before_collects_all_errors_and_gates_action (hs ms fs : List Nat)
    (he fe : Nat → Option GoError) (s : List Ev) (mctx pctx : List Nat)
    (nsub alen : Nat) (name : String) :
    (cmdBefore (hs.map (tracerHook he)) (ms.map tracerMw) (fs.map (tracerFlag fe))
        s mctx pctx ()).2.2 =
      resolveCollected (hs.filterMap he ++ fs.filterMap fe)
    ∧ cliRunOnce (hs.map (tracerHook he)) (ms.map tracerMw) (fs.map (tracerFlag fe))
        (some tracerAction) nsub name alen s mctx pctx () =
      (match resolveCollected (hs.filterMap he ++ fs.filterMap fe) with
       | some e =>
         (s ++ hs.map Ev.hook ++ ms.map Ev.mw ++ fs.map Ev.flagv, HelpShown.noHelp, some e)
       | none =>
         (s ++ hs.map Ev.hook ++ ms.map Ev.mw ++ fs.map Ev.flagv ++ [Ev.act],
          HelpShown.noHelp, none)) := by
  refine ⟨?_, ?_⟩
  · simp [cmdBefore, runHooks_tracer, runMiddleware_tracer, runFlagActions_tracer]
  · cases hm : resolveCollected (hs.filterMap he ++ fs.filterMap fe) <;>
      simp [cliRunOnce, cmdBefore, runHooks_tracer, runMiddleware_tracer,
        runFlagActions_tracer, hm, cmdAction, tracerAction]

/-- C3: the action phase dispatches in order: a set terminal action is
invoked with the commander-managed context; otherwise with zero child
commanders the result is an error wrapping `ErrNotDefined`; otherwise
with zero remaining arguments app help is shown and the result is an
error wrapping `ErrNotSpecified`; otherwise subcommand help is shown and
the result is an error wrapping `ErrNotDefined`. -/
theorem action_dispatch {σ Ctx Cc : Type} (op : ActionFn σ Ctx Cc) (nsub alen : Nat)
    (name : String) (s : σ) (mctx : Ctx) (cc : Cc) :
    cmdAction (some op) nsub name alen s mctx cc =
      ((op s mctx cc).1, HelpShown.noHelp, (op s mctx cc).2)
    ∧ (cmdAction (@none (ActionFn σ Ctx Cc)) 0 name alen s mctx cc =
        (s, HelpShown.noHelp, some (GoError.wrapf "action" GoError.errNotDefined))
      ∧ errorIs (GoError.wrapf "action" GoError.errNotDefined) GoError.errNotDefined = true)
    ∧ (nsub ≠ 0 →
        cmdAction (@none (ActionFn σ Ctx Cc)) nsub name 0 s mctx cc =
          (s, HelpShown.appHelp,
            some (GoError.wrapf ("no operation for " ++ goQuote name)
              GoError.errNotSpecified))
        ∧ errorIs (GoError.wrapf ("no operation for " ++ goQuote name)
            GoError.errNotSpecified) GoError.errNotSpecified = true)
    ∧ (nsub ≠ 0 → alen ≠ 0 →
        cmdAction (@none (ActionFn σ Ctx Cc)) nsub name alen s mctx cc =
          (s, HelpShown.commandHelp,
            some (GoError.wrapf ("command " ++ toString alen) GoError.errNotDefined))
        ∧ errorIs (GoError.wrapf ("command " ++ toString alen) GoError.errNotDefined)
            GoError.errNotDefined = true) := by
  refine ⟨?_, ⟨?_, ?_⟩, fun h1 => ⟨?_, ?_⟩, fun h1 h2 => ⟨?_, ?_⟩⟩ <;>
    simp_all [cmdAction, joinHelpErr, errorIs]

/-- Witness for `action_dispatch` at a concrete input: one subcommand,
one remaining argument, plus the concrete terminal action branch. -/
theorem action_dispatch_witness :
    cmdAction (@none (ActionFn Unit Unit Unit)) 1 "root" 1 () () () =
      ((), HelpShown.commandHelp,
        some (GoError.wrapf ("command " ++ toString 1) GoError.errNotDefined)) :=
  ((action_dispatch (fun s _ _ => (s, none)) 1 1 "root" () () ()).2.2.2
    (by decide) (by decide)).1

/-- C4: resolution runs its body at most once — whenever a call to
`command` succeeds with compiled command `r` and post-state `c'`, every
later call on `c'` is a no-op returning exactly the same cached `r`
(hence the same flag and subcommand counts) and leaving the state
unchanged. -/
theorem command_resolves_once (c : CommanderSt) (r : CompiledCmd) (c' : CommanderSt)
    (h : command c = Except.ok (r, c')) : command c' = Except.ok (r, c') := by
  cases c with
  | mk resolved ctxB cmd cname cusage chidden caliases cflags csubs =>
    cases resolved with
    | true =>
      simp only [command, CommanderSt.ctxBound, commandAux, if_pos,
        Except.ok.injEq, Prod.mk.injEq] at h
      obtain ⟨rfl, rfl⟩ := h
      simp [command, CommanderSt.ctxBound, commandAux]
    | false =>
      cases ctxB with
      | false => simp [command, CommanderSt.ctxBound, commandAux] at h
      | true =>
        cases hcl : commandListAux csubs with
        | error e =>
          simp [command, CommanderSt.ctxBound, commandAux, hcl] at h
        | ok sub =>
          simp only [command, CommanderSt.ctxBound, commandAux, hcl,
            Except.ok.injEq, Prod.mk.injEq] at h
          obtain ⟨rfl, rfl⟩ := h
          simp [command, CommanderSt.ctxBound, commandAux]

/-- Witness for `command_resolves_once`: a concrete root with two flags
and one child, resolved once, whose second resolution replays the cached
result. -/
theorem command_resolves_once_witness :
    command sampleResolved = Except.ok (sampleRootCmd, sampleResolved) :=
  command_resolves_once sampleCommander sampleRootCmd sampleResolved (by rfl)

theorem flagRunActions_done {T : Type} (validate : Option (Nat → T → Nat × Option GoError))
    (ce : Option GoError) (s : Nat) (vals : List T) :
    flagRunActions validate ⟨true, ce⟩ s vals = (⟨true, ce⟩, s, vals.map fun _ => ce) := by
  induction vals generalizing s with
  | nil => simp [flagRunActions]
  | cons v rest ih =>
    simp [flagRunActions, flagRunAction, onceDo, onceResolve, ih]

theorem flagRunParses_done {T : Type} (validate : Option (Nat → T → Nat × Option GoError))
    (ce : Option GoError) (s : Nat) (parses : List (List T)) :
    flagRunParses validate ⟨true, ce⟩ s parses =
      (⟨true, ce⟩, s, parses.map fun p => p.map fun _ => ce) := by
  induction parses generalizing s with
  | nil => simp [flagRunParses]
  | cons p rest ih =>
    simp [flagRunParses, flagRunActions_done, ih]

/-- C5: within a single parse, the user validation function runs at most
once no matter how many times the parsing library invokes the flag's
action callback — the first invocation runs it (once: the instrumented
counter ends at 1) and every later invocation replays the cached result
of that first execution. -/
theorem flag_validation_once_per_parse {T : Type} (vf : T → Option GoError)
    (v : T) (rest : List T) :
    flagRunActions (countingValidate vf) freshOnce 0 (v :: rest) =
      (⟨true, vf v⟩, 1, vf v :: rest.map fun _ => vf v)
    ∧ ∀ vals : List T,
        (flagRunActions (countingValidate vf) freshOnce 0 vals).2.1 ≤ 1 := by
  constructor
  · simp [flagRunActions, flagRunAction, onceDo, onceResolve, freshOnce,
      countingValidate, doValidate, flagRunActions_done]
  · intro vals
    cases vals with
    | nil => simp [flagRunActions]
    | cons v0 rest0 =>
      simp [flagRunActions, flagRunAction, onceDo, onceResolve, freshOnce,
        countingValidate, doValidate, flagRunActions_done]

/-- C10: the once guard lives in the `Flag` value itself and is never
reset, so across every parse of the same resolved command in one process
the user validation function executes at most once in total — the first
action invocation of the first non-empty parse runs it, and every
subsequent invocation in that parse and in all later parses replays the
cached first result. -/
theorem flag_validation_once_per_lifetime {T : Type} (vf : T → Option GoError)
    (v : T) (p1 : List T) (parses : List (List T)) :
    flagRunParses (countingValidate vf) freshOnce 0 ((v :: p1) :: parses) =
      (⟨true, vf v⟩, 1,
        (vf v :: p1.map fun _ => vf v) :: parses.map fun p => p.map fun _ => vf v)
    ∧ ∀ ps : List (List T),
        (flagRunParses (countingValidate vf) freshOnce 0 ps).2.1 ≤ 1 := by
  constructor
  · simp [flagRunParses, flagRunActions, flagRunAction, onceDo, onceResolve,
      freshOnce, countingValidate, doValidate, flagRunActions_done, flagRunParses_done]
  · intro ps
    induction ps with
    | nil => simp [flagRunParses]
    | cons p rest ih =>
      cases p with
      | nil =>
        simpa [flagRunParses, flagRunActions] using ih
      | cons v0 rest0 =>
        simp [flagRunParses, flagRunActions, flagRunAction, onceDo, onceResolve,
          freshOnce, countingValidate, doValidate, flagRunActions_done,
          flagRunParses_done]

/-- C7: constructing a slice-typed flag succeeds exactly when the
descriptor's default value is empty and its destination cell is nil;
a non-empty default or a non-nil destination hits the construction-time
assertion (the abort branch), never a returned error. -/
theorem slice_flag_construction_asserts {α : Type} (opts : SliceFlagOptions α) :
    exceptIsOk (makeFlagSlice opts) =
      (opts.default.isEmpty && opts.destination.isNone) := by
  cases hd : opts.default <;> cases hdest : opts.destination <;>
    simp [makeFlagSlice, exceptIsOk, hd, hdest]

/-- C9: a timestamp descriptor whose layout is unset compiles to a flag
whose layout is `time.RFC3339`, and calling the layout setter on a
descriptor of any non-timestamp value type is a construction-time
assertion failure. -/
theorem timestamp_layout_default_and_setter_assert (opts : TimestampFlagOptions)
    (fo : FlagOptionsTL) (l : String) :
    (opts.timestampLayout = "" → (makeFlagTimestamp opts).layout = timeRFC3339)
    ∧ (fo.tag ≠ FlagTypeTag.tTimePtr →
        setTimestmapLayout fo l =
          Except.error "cannot set timestamp layout for non-timestamp flags") := by
  constructor
  · intro h
    simp [makeFlagTimestamp, h]
  · intro h
    cases fo with
    | mk tag lay => cases tag <;> simp_all [setTimestmapLayout]

/-- Witness for `timestamp_layout_default_and_setter_assert`: a concrete
layout-less timestamp descriptor and a concrete string-typed setter
call. -/
theorem timestamp_layout_witness :
    (makeFlagTimestamp
        { name := "when", aliases := [], usage := "", filePath := "",
          required := false, hidden := false, timestampLayout := "",
          default := none }).layout = timeRFC3339
    ∧ setTimestmapLayout { tag := FlagTypeTag.tString, timestampLayout := "" } "x" =
        Except.error "cannot set timestamp layout for non-timestamp flags" :=
  ⟨(timestamp_layout_default_and_setter_assert
      { name := "when", aliases := [], usage := "", filePath := "",
        required := false, hidden := false, timestampLayout := "",
        default := none }
      { tag := FlagTypeTag.tString, timestampLayout := "" } "x").1 rfl,
   (timestamp_layout_default_and_setter_assert
      { name := "when", aliases := [], usage := "", filePath := "",
        required := false, hidden := false, timestampLayout := "",
        default := none }
      { tag := FlagTypeTag.tString, timestampLayout := "" } "x").2 (by decide)⟩

theorem runOps_all_none {Ctx T : Type} (ops : List (Ctx → T → Option GoError))
    (ctx : Ctx) (v : T) (h : ∀ op ∈ ops, op ctx v = none) :
    runOps ops ctx v = none := by
  induction ops with
  | nil => simp [runOps]
  | cons op rest ih =>
    have h1 : op ctx v = none := h op (List.mem_cons_self op rest)
    have h2 : ∀ o ∈ rest, o ctx v = none := fun o ho => h o (List.mem_cons_of_mem op ho)
    simp [runOps, h1, ih h2]

theorem runOps_first_error {Ctx T : Type} (pre post : List (Ctx → T → Option GoError))
    (bad : Ctx → T → Option GoError) (ctx : Ctx) (v : T) (e : GoError)
    (hpre : ∀ op ∈ pre, op ctx v = none) (hbad : bad ctx v = some e) :
    runOps (pre ++ bad :: post) ctx v = some e := by
  induction pre with
  | nil => simp [runOps, hbad]
  | cons op rest ih =>
    have h1 : op ctx v = none := hpre op (List.mem_cons_self op rest)
    have h2 : ∀ o ∈ rest, o ctx v = none := fun o ho => hpre o (List.mem_cons_of_mem op ho)
    simp [runOps, h1, ih h2]

/-- C8: a composite hook runs the constructor and then the Operations in
order on the produced value; a constructor error yields the zero value
and that error; if every Operation succeeds it yields the constructed
value and nil; and the first failing Operation yields the zero value and
its error irrespective of the Operations after it (they are skipped). -/
theorem compositeHook_spec {Ctx Cc T : Type} [Inhabited T]
    (constr : Ctx → Cc → T × Option GoError)
    (ops pre post : List (Ctx → T → Option GoError))
    (bad : Ctx → T → Option GoError) (ctx : Ctx) (cc : Cc) (v : T) (e : GoError) :
    (constr ctx cc = (v, some e) →
      CompositeHook constr ops ctx cc = (default, some e))
    ∧ (constr ctx cc = (v, none) → (∀ op ∈ ops, op ctx v = none) →
        CompositeHook constr ops ctx cc = (v, none))
    ∧ (constr ctx cc = (v, none) → (∀ op ∈ pre, op ctx v = none) →
        bad ctx v = some e →
        CompositeHook constr (pre ++ bad :: post) ctx cc = (default, some e)) := by
  refine ⟨fun h => ?_, fun h hall => ?_, fun h hpre hbad => ?_⟩
  · simp [CompositeHook, h]
  · simp [CompositeHook, h, runOps_all_none ops ctx v hall]
  · simp [CompositeHook, h, runOps_first_error pre post bad ctx v e hpre hbad]

/-- Witness for `compositeHook_spec`: a concrete constructor producing
`3`, one succeeding Operation, a failing one, and a skipped trailing
Operation. -/
theorem compositeHook_spec_witness :
    CompositeHook (fun (_ : Unit) (_ : Unit) => ((3 : Nat), (none : Option GoError)))
        ([fun _ _ => none] ++ (fun _ n => some (GoError.msg (toString n))) ::
          [fun _ _ => some GoError.errNotSet]) () () =
      (default, some (GoError.msg (toString 3))) :=
  (compositeHook_spec (fun _ _ => (3, none)) [] [fun _ _ => none]
      [fun _ _ => some GoError.errNotSet]
      (fun _ n => some (GoError.msg (toString n))) () () 3
      (GoError.msg (toString 3))).2.2 rfl
    (by
      intro op hop
      rw [List.mem_singleton] at hop
      subst hop
      rfl)
    rfl

/-- C6 counterexample: for a spec carrying one validation Operation the
claim predicts `1 + 1 = 2` installed untyped hooks, but `Add` installs
exactly one (the repository's own test asserts `cmd.numHooks() == 1`). -/
theorem operationSpec_add_hook_count_cex :
    ¬ ((spec1.add commander0).hooks.length - commander0.hooks.length =
        1 + spec1.hooks.length) := by
  simp [OperationSpec.add, spec1, commander0]

/-- C6 (amended): `Add` installs exactly one untyped hook — the closure
that runs the constructor, captures the produced value, and runs each
validation Operation in order against it, short-circuiting on the first
error — plus a cell-reading middleware closure only when the spec's
middleware is present, and a cell-reading terminal action only when the
spec's action is present. -/
theorem operationSpec_add_installs {σ Ctx Cc T : Type} (spec : OperationSpec σ Ctx Cc T)
    (c : CommanderA σ Ctx Cc T) :
    (spec.add c).hooks = c.hooks ++ [specHook spec]
    ∧ (spec.add c).hooks.length = c.hooks.length + 1
    ∧ (∀ mw, spec.middleware = some mw →
        (spec.add c).middleware = c.middleware ++ [fun out ctx => mw ctx out])
    ∧ (spec.middleware = none → (spec.add c).middleware = c.middleware)
    ∧ (∀ a, spec.action = some a →
        (spec.add c).action = some (fun out s ctx _ => a s ctx out))
    ∧ (spec.action = none → (spec.add c).action = c.action)
    ∧ (∀ old s s1 out e ctx cc, spec.constr s ctx cc = (s1, out, some e) →
        specHook spec old s ctx cc = (out, s1, some e))
    ∧ (∀ old s s1 out ctx cc, spec.constr s ctx cc = (s1, out, none) →
        specHook spec old s ctx cc = specHookOps spec.hooks out s1 ctx)
    ∧ (∀ (pre post : List (σ → Ctx → T → σ × Option GoError)) bad out s s2 ctx e,
        specHookOps pre out s ctx = (out, s2, none) →
        (bad s2 ctx out).2 = some e →
        specHookOps (pre ++ bad :: post) out s ctx =
          (out, (bad s2 ctx out).1, some e)) := by
  refine ⟨rfl, by simp [OperationSpec.add], fun mw hmw => ?_, fun hmw => ?_,
    fun a ha => ?_, fun ha => ?_, fun old s s1 out e ctx cc h => ?_,
    fun old s s1 out ctx cc h => ?_, fun pre post bad out s s2 ctx e hpre hbad => ?_⟩
  · simp [OperationSpec.add, hmw]
  · simp [OperationSpec.add, hmw]
  · simp [OperationSpec.add, ha]
  · simp [OperationSpec.add, ha]
  · simp [specHook, h]
  · simp [specHook, h]
  · induction pre generalizing s with
    | nil =>
      simp [specHookOps] at hpre
      obtain ⟨rfl, -⟩ := hpre
      simp [specHookOps, hbad]
    | cons op rest ih =>
      simp only [specHookOps] at hpre ⊢
      cases hop : (op s ctx out).2 with
      | some e0 => simp [hop] at hpre
      | none =>
        simp only [hop] at hpre ⊢
        exact ih _ hpre

/-- Witness for `operationSpec_add_installs` at the concrete one-Operation
spec on a fresh commander, discharging the none-middleware and
none-action hypotheses. -/
theorem operationSpec_add_installs_witness :
    (spec1.add commander0).hooks.length = commander0.hooks.length + 1
    ∧ (spec1.add commander0).middleware = commander0.middleware
    ∧ (spec1.add commander0).action = commander0.action :=
  ⟨(operationSpec_add_installs spec1 commander0).2.1,
   (operationSpec_add_installs spec1 commander0).2.2.2.1 rfl,
   (operationSpec_add_installs spec1 commander0).2.2.2.2.2.1 rfl⟩

end Cmdr
